import Mathlib

/-!
Verification of the metric aggregation and durable-checkpoint subsystem of
aria-vsphere-metrics-collector.

Shallow embedding conventions:
* Go strings are `List Char` (`GoStr`).
* Go `map[string]string` / `map[string]float64` values are association lists
  with update-in-place semantics (`assocUpd`), looked up with `assocGet`;
  a possibly-nil Go map is `Option LabelMap` (`none` models the nil map).
* Go `float64` metric values are modelled as rationals (`Val := ℚ`): the
  claims under study are structural, and JSON round-trips the finite doubles
  in play exactly, so no IEEE behaviour is relevant.
* The filesystem is an association list from path to `FileContent`; a JSON
  file that was fully written holds the parsed document (`FileContent.doc`);
  an interrupted write leaves unparsable bytes (`FileContent.raw`). The
  `encoding/json` marshal/unmarshal pair is modelled as the bijection between
  Go values and such documents (`Jval` trees), which is the library's contract
  for the value shapes persisted here.
* Fallible filesystem operations return `Except StoreErr` alongside the new
  filesystem/state; an explicit `SaveCrash` argument selects the failure point
  (no failure, open/marshal failure before any write, or an interruption
  mid-write that leaves whatever bytes were flushed).
* Goroutines, tickers and mutexes are not modelled: every claim below is about
  the sequential effect of the operations that the source performs under the
  sink/store lock. Behaviour internal to the Prometheus client library is
  modelled only as the per-series accumulator its vectors maintain
  (`counterVecVals`/`gaugeVecVals`); its registration panics on duplicate
  names and its label-cardinality panics are outside the model.
-/

set_option autoImplicit false

namespace Vmc

/-- A Go string, modelled as its list of characters. -/
abbrev GoStr := List Char

/-- Metric numeric values (`float64` in the source), modelled as rationals. -/
abbrev Val := ℚ

/-- A non-nil Go `map[string]string`: an association list from label name to
label value (keys distinct in any map produced by Go). -/
abbrev LabelMap := List (GoStr × GoStr)

/-- Lookup in an association list (Go `v, ok := m[k]`). -/
def assocGet {β : Type} : List (GoStr × β) → GoStr → Option β
  | [], _ => none
  | (k', v) :: rest, k => if k = k' then some v else assocGet rest k

/-- Update/insert in an association list (Go `m[k] = v`). -/
def assocUpd {β : Type} : List (GoStr × β) → GoStr → β → List (GoStr × β)
  | [], k, v => [(k, v)]
  | (k', v') :: rest, k, v =>
      if k = k' then (k, v) :: rest else (k', v') :: assocUpd rest k v

/-- Deletion from an association list (used by `fsRename`). -/
def assocErase {β : Type} : List (GoStr × β) → GoStr → List (GoStr × β)
  | [], _ => []
  | (k', v') :: rest, k =>
      if k = k' then assocErase rest k else (k', v') :: assocErase rest k

/-- Go `strings.Split(s, sep)` for a one-character separator: always returns
at least one piece; splitting the empty string yields `[""]`. -/
def splitOnChar (sep : Char) : GoStr → List GoStr
  | [] => [[]]
  | c :: cs =>
      match splitOnChar sep cs with
      | [] => [[]]
      | r :: rs => if c = sep then [] :: r :: rs else (c :: r) :: rs

/-- Go `strings.SplitN(s, sep, 2)` for a one-character separator: split at the
first occurrence only; the remainder keeps any further separators. -/
def splitN2 (sep : Char) : GoStr → List GoStr
  | [] => [[]]
  | c :: cs =>
      if c = sep then [[], cs]
      else
        match splitN2 sep cs with
        | [] => [[c]]
        | r :: rs => (c :: r) :: rs

/-- Go `strings.Join(parts, sep)` for a one-character separator. -/
def joinWith (sep : Char) : List GoStr → GoStr
  | [] => []
  | [p] => p
  | p :: q :: ps => p ++ sep :: joinWith sep (q :: ps)

/-- Go byte-wise string comparison `a <= b` (`slices.Sort` / `sort.Strings`
order); characters compare by code point, which coincides with Go's byte
order for the strings in play. -/
def strLe : GoStr → GoStr → Bool
  | [], _ => true
  | _ :: _, [] => false
  | a :: as, b :: bs => if a < b then true else if b < a then false else strLe as bs

/-- Insert into a sorted list of strings (helper of `sortStrs`). -/
def insertStr (x : GoStr) : List GoStr → List GoStr
  | [] => [x]
  | y :: ys => if strLe x y then x :: y :: ys else y :: insertStr x ys

/-- Insertion sort embedding Go's `slices.Sort` / `sort.Strings`. -/
def sortStrs : List GoStr → List GoStr
  | [] => []
  | x :: xs => insertStr x (sortStrs xs)

/-- Go map index with the zero value: `labels[k]` yields `""` when `k` is
absent or the map is nil. -/
def goIndex (labels : Option LabelMap) (k : GoStr) : GoStr :=
  match labels with
  | none => []
  | some m => (assocGet m k).getD []

namespace util

/-- Modelled from the spec: the constant `KEY_VAL_SEPARATOR` is referenced by
`util` and `checkpoint` but its declaration is not under `src/`; §4.1 fixes
the assignment character to `=` (and both `JoinMapEntries` variants under
`src/` hardcode `"="`). -/
def KEY_VAL_SEPARATOR : Char := '='

/-- Modelled from the spec: the constant `MAP_ENTRY_SEPARATOR` is referenced by
`util` but its declaration is not under `src/`; §4.1 fixes the entry separator
to `|` (and both `JoinMapEntries` variants under `src/` hardcode `"|"`). -/
def MAP_ENTRY_SEPARATOR : Char := '|'

/-- Embedding of `util.SortedKeysFromMap` (src/main.go): nil map yields `[]`; otherwise the
keys, sorted. -/
def SortedKeysFromMap (amap : Option LabelMap) : List GoStr :=
  match amap with
  | none => []
  | some m => sortStrs (m.map Prod.fst)

/-- Embedding of `util.JoinMapEntries` (src/main.go): `name1=value1|name2=value2|...` over
the sorted keys; empty/nil map yields `""`. The two-argument variant of this
function found in the repository ignores its separator argument apart from an
empty-default check and produces the same string, so both variants share this
embedding. -/
def JoinMapEntries (labels : Option LabelMap) : GoStr :=
  let keys := SortedKeysFromMap labels
  if keys = [] then []
  else joinWith MAP_ENTRY_SEPARATOR (keys.map fun k => k ++ KEY_VAL_SEPARATOR :: goIndex labels k)

/-- Embedding of `util.MapFromString` (src/main.go): split on `|`, then take index `[0]`
and index `[1]` of the split on `=` of each entry (`mapFromStringStep` is the
loop body, named so it can be reasoned about). The Go code indexes `[1]`
without a length check; when an entry contains no `=` that index is out of
range and the Go runtime panics — modelled here as `none`. A `some` result
models normal return. -/
def mapFromStringStep (labels : LabelMap) (keyVal : GoStr) : Option LabelMap :=
  let parts := splitOnChar KEY_VAL_SEPARATOR keyVal
  match parts[1]? with
  | none => none
  | some value => some (assocUpd labels (parts.headD []) value)

def MapFromString (mapAsString : GoStr) : Option LabelMap :=
  if mapAsString = [] then some []
  else (splitOnChar MAP_ENTRY_SEPARATOR mapAsString).foldlM mapFromStringStep []

end util

/-- A `counters`/`gauges` table: metric name to canonical label key to value
(Go `map[string]map[string]float64`). -/
abbrev Table := List (GoStr × List (GoStr × Val))

/-- Value of a series in a table with the Go zero default (absent = 0). -/
def tblGetD (t : Table) (name key : GoStr) : Val :=
  ((assocGet ((assocGet t name).getD []) key)).getD 0

/-- Value of a series in a table, `none` when the series is absent. -/
def tblGetOpt (t : Table) (name key : GoStr) : Option Val :=
  (assocGet t name).bind fun inner => assocGet inner key

/-- The ensure-inner-map-then-add pattern of the source
(`if _, ok := m[name]; !ok ... ; m[name][key] += d`). -/
def tblAdd (t : Table) (name key : GoStr) (d : Val) : Table :=
  let inner := (assocGet t name).getD []
  assocUpd t name (assocUpd inner key ((assocGet inner key).getD 0 + d))

/-- The ensure-inner-map-then-assign pattern of the source
(`if _, ok := m[name]; !ok ... ; m[name][key] = v`). -/
def tblSet (t : Table) (name key : GoStr) (v : Val) : Table :=
  let inner := (assocGet t name).getD []
  assocUpd t name (assocUpd inner key v)

/-- A parsed JSON document (`encoding/json` data model: numbers, strings,
arrays, objects). -/
inductive Jval where
  | num (v : Val)
  | str (s : GoStr)
  | arr (elems : List Jval)
  | obj (fields : List (GoStr × Jval))

/-- Contents of a file on disk: either a completely written JSON document, or
raw bytes from an incomplete/interrupted write (never parsable as the
expected structure). -/
inductive FileContent where
  | doc (j : Jval)
  | raw (bytes : GoStr)

/-- The filesystem: paths with their contents; an absent path has no file. -/
abbrev FS := List (GoStr × FileContent)

def fsRead (fs : FS) (path : GoStr) : Option FileContent := assocGet fs path

def fsWrite (fs : FS) (path : GoStr) (c : FileContent) : FS := assocUpd fs path c

/-- Embedding of `os.Rename(src, dst)`: atomically moves the file at `src` over `dst`. -/
def fsRename (fs : FS) (src dst : GoStr) : FS :=
  match assocGet fs src with
  | none => fs
  | some c => fsWrite (assocErase fs src) dst c

/-- Failure taxonomy of the checkpoint store (spec §7). -/
inductive StoreErr where
  | notFound
  | corruptFormat
  | ioError
deriving DecidableEq

/-- Failure point injected into a save operation:
`noCrash` — the save completes;
`openFail` — the failure happens before anything is written (file creation or
marshalling fails);
`duringWrite w` — the write is interrupted after the destination of the write
was created/truncated, leaving the bytes `w` there. -/
inductive SaveCrash where
  | noCrash
  | openFail
  | duringWrite (written : GoStr)

/-- JSON encoding of an inner (label key to value) map. -/
def encodeInnerTable (m : List (GoStr × Val)) : Jval :=
  .obj (m.map fun p => (p.1, .num p.2))

/-- JSON encoding of a `counters`/`gauges` table. -/
def encodeTable (t : Table) : Jval :=
  .obj (t.map fun p => (p.1, encodeInnerTable p.2))

/-- The document `JSONCheckpoint.Save` marshals: two top-level fields. -/
def encodeTables (counters gauges : Table) : Jval :=
  .obj [("counters".toList, encodeTable counters), ("gauges".toList, encodeTable gauges)]

def decodeNum : Jval → Option Val
  | .num v => some v
  | _ => none

def decodeStr : Jval → Option GoStr
  | .str s => some s
  | _ => none

/-- Element-wise decoding of a list, failing if any element fails (the
`encoding/json` behaviour for arrays/objects of homogeneous values). -/
def mapMOpt {α β : Type} (f : α → Option β) : List α → Option (List β)
  | [] => some []
  | a :: as => (f a).bind fun b => (mapMOpt f as).map fun bs => b :: bs

def decodeInnerTable : Jval → Option (List (GoStr × Val))
  | .obj fields => mapMOpt (fun p => (decodeNum p.2).map fun v => (p.1, v)) fields
  | _ => none

def decodeTable : Jval → Option Table
  | .obj fields => mapMOpt (fun p => (decodeInnerTable p.2).map fun t => (p.1, t)) fields
  | _ => none

/-- Unmarshalling of the two-table document (`json.Decoder.Decode` into the
anonymous struct of `JSONCheckpoint.Load`); a missing field leaves the Go map
nil, modelled as the empty table. -/
def decodeTables : Jval → Option (Table × Table)
  | .obj fields =>
      (match assocGet fields ("counters".toList) with
       | none => some []
       | some j => decodeTable j).bind fun c =>
      (match assocGet fields ("gauges".toList) with
       | none => some []
       | some j => decodeTable j).map fun g => (c, g)
  | _ => none

namespace checkpoint

/-- Embedding of `checkpoint.JSONCheckpoint` (src/checkpoint/jsoncheckpoint.go): the
file-backed store's path and its two in-memory tables. -/
structure JSONCheckpoint where
  FilePath : GoStr
  CounterValues : Table
  GaugeValues : Table

/-- Embedding of `checkpoint.NewJSONCheckpoint`. -/
def NewJSONCheckpoint (filePath : GoStr) : JSONCheckpoint :=
  { FilePath := filePath, CounterValues := [], GaugeValues := [] }

/-- Embedding of `JSONCheckpoint.IncCounter` (src/checkpoint/jsoncheckpoint.go:35): ensure
the inner map exists, then `CounterValues[name][key]++` at the canonical
label key. -/
def JSONCheckpoint.IncCounter (jc : JSONCheckpoint) (name : GoStr)
    (labels : Option LabelMap) : JSONCheckpoint :=
  let key := util.JoinMapEntries labels
  { jc with CounterValues := tblAdd jc.CounterValues name key 1 }

/-- Embedding of `JSONCheckpoint.SetGauge` (src/checkpoint/jsoncheckpoint.go:50): ensure
the inner map exists, then `GaugeValues[name][key] = value`. -/
def JSONCheckpoint.SetGauge (jc : JSONCheckpoint) (name : GoStr)
    (labels : Option LabelMap) (value : Val) : JSONCheckpoint :=
  let key := util.JoinMapEntries labels
  { jc with GaugeValues := tblSet jc.GaugeValues name key value }

/-- Embedding of `JSONCheckpoint.Save` (src/checkpoint/jsoncheckpoint.go:66): `os.Create`
opens (and on success truncates) the canonical path `jc.FilePath` directly —
there is no temporary path and no rename — then the JSON encoder writes the
two-table document into it. `openFail` models `os.Create` failing (nothing
written); `duringWrite w` models an interruption after the truncation with
only `w` flushed. -/
def JSONCheckpoint.Save (jc : JSONCheckpoint) (fs : FS) (crash : SaveCrash) :
    FS × Except StoreErr Unit :=
  match crash with
  | .openFail => (fs, .error .ioError)
  | .duringWrite w => (fsWrite fs jc.FilePath (.raw w), .error .ioError)
  | .noCrash =>
      (fsWrite fs jc.FilePath (.doc (encodeTables jc.CounterValues jc.GaugeValues)), .ok ())

/-- Embedding of `JSONCheckpoint.Load` (src/checkpoint/jsoncheckpoint.go:86): `os.Open`
fails when no file exists (surfaced; a not-found error); an unparsable file is
a decode error; on success both tables are replaced wholesale by the decoded
ones. -/
def JSONCheckpoint.Load (jc : JSONCheckpoint) (fs : FS) :
    JSONCheckpoint × Except StoreErr Unit :=
  match fsRead fs jc.FilePath with
  | none => (jc, .error .notFound)
  | some (.raw _) => (jc, .error .corruptFormat)
  | some (.doc j) =>
      match decodeTables j with
      | none => (jc, .error .corruptFormat)
      | some (c, g) => ({ jc with CounterValues := c, GaugeValues := g }, .ok ())

end checkpoint

namespace prometheus

/-- One entry of the JSON array `PrometheusSink.SaveCheckpoint` writes
(`metricSnapshot` in src/prometheus/sink.go). -/
structure MetricSnapshot where
  name : GoStr
  labels : LabelMap
  value : Val
  type : GoStr

/-- Embedding of `prometheus.PrometheusSink` (src/prometheus/sink.go): the registered
vectors (name with the label-name schema each was created with), the
`labelNames` side table, the values the library's vectors accumulate (the
scrape surface), and the two checkpoint tables. -/
structure PrometheusSink where
  counters : List (GoStr × List GoStr)
  gauges : List (GoStr × List GoStr)
  labelNames : List (GoStr × List GoStr)
  counterVecVals : Table
  gaugeVecVals : Table
  counterValues : Table
  gaugeValues : Table

/-- Embedding of `prometheus.NewSink`. -/
def NewSink : PrometheusSink :=
  { counters := [], gauges := [], labelNames := [],
    counterVecVals := [], gaugeVecVals := [],
    counterValues := [], gaugeValues := [] }

/-- Embedding of `keysFromLabels` (src/prometheus/sink.go:115): nil yields `[]`, otherwise
the sorted label names. -/
def keysFromLabels (labels : Option LabelMap) : List GoStr :=
  match labels with
  | none => []
  | some m => sortStrs (m.map Prod.fst)

/-- Embedding of `labelKeyFromLabels` (src/prometheus/sink.go:127): `"k1=v1|k2=v2"` over
the given keys; no keys yields `""`. -/
def labelKeyFromLabels (keys : List GoStr) (labels : Option LabelMap) : GoStr :=
  if keys = [] then []
  else joinWith '|' (keys.map fun k => k ++ '=' :: goIndex labels k)

/-- Embedding of `getOrCreateCounter` (src/prometheus/sink.go:46): a first observation
registers a fresh counter vector under `name` and records the label-name
schema; an existing vector is returned unchanged. -/
def getOrCreateCounter (p : PrometheusSink) (name : GoStr) (lnames : List GoStr) :
    PrometheusSink :=
  match assocGet p.counters name with
  | some _ => p
  | none =>
      { p with counters := assocUpd p.counters name lnames,
               labelNames := assocUpd p.labelNames name lnames,
               counterValues := assocUpd p.counterValues name [],
               counterVecVals := assocUpd p.counterVecVals name [] }

/-- Embedding of `getOrCreateGauge` (src/prometheus/sink.go:63): gauge counterpart of
`getOrCreateCounter`. -/
def getOrCreateGauge (p : PrometheusSink) (name : GoStr) (lnames : List GoStr) :
    PrometheusSink :=
  match assocGet p.gauges name with
  | some _ => p
  | none =>
      { p with gauges := assocUpd p.gauges name lnames,
               labelNames := assocUpd p.labelNames name lnames,
               gaugeValues := assocUpd p.gaugeValues name [],
               gaugeVecVals := assocUpd p.gaugeVecVals name [] }

/-- Embedding of `PrometheusSink.IncCounter` (src/prometheus/sink.go:81): get or create the
vector, `counter.With(labels).Add(1)` on the vector's accumulator, then ensure
the inner checkpoint map and `counterValues[name][key] += 1`. -/
def PrometheusSink.IncCounter (p : PrometheusSink) (name : GoStr)
    (labels : Option LabelMap) : PrometheusSink :=
  let lnames := keysFromLabels labels
  let p1 := getOrCreateCounter p name lnames
  let key := labelKeyFromLabels lnames labels
  { p1 with counterVecVals := tblAdd p1.counterVecVals name key 1,
            counterValues := tblAdd p1.counterValues name key 1 }

/-- Embedding of `PrometheusSink.SetGauge` (src/prometheus/sink.go:99): get or create the
vector, `gauge.With(labels).Set(value)` on the vector's accumulator, then
ensure the inner checkpoint map and `gaugeValues[name][key] = value`. -/
def PrometheusSink.SetGauge (p : PrometheusSink) (name : GoStr)
    (labels : Option LabelMap) (value : Val) : PrometheusSink :=
  let lnames := keysFromLabels labels
  let p1 := getOrCreateGauge p name lnames
  let key := labelKeyFromLabels lnames labels
  { p1 with gaugeVecVals := tblSet p1.gaugeVecVals name key value,
            gaugeValues := tblSet p1.gaugeValues name key value }

/-- Label-map reconstruction from a canonical key, as done inline in
`SaveCheckpoint` (src/prometheus/sink.go:157): split the key on `|`, split
each part on the first `=` (`strings.SplitN(part, "=", 2)`), keep only parts
with both pieces. -/
def labelsFromKey (key : GoStr) : LabelMap :=
  if key = [] then []
  else
    (splitOnChar '|' key).foldl
      (fun labels part =>
        match splitN2 '=' part with
        | [k, v] => assocUpd labels k v
        | _ => labels)
      []

/-- The snapshot array `SaveCheckpoint` builds from one table. -/
def snapshotsOfTable (t : Table) (type : GoStr) : List MetricSnapshot :=
  t.flatMap fun p => p.2.map fun q => ⟨p.1, labelsFromKey q.1, q.2, type⟩

/-- The full snapshot array `SaveCheckpoint` marshals: all counter entries,
then all gauge entries. -/
def snapshotsOf (p : PrometheusSink) : List MetricSnapshot :=
  snapshotsOfTable p.counterValues ("counter".toList)
    ++ snapshotsOfTable p.gaugeValues ("gauge".toList)

/-- JSON encoding of a snapshot's label map. -/
def encodeLabels (m : LabelMap) : Jval :=
  .obj (m.map fun p => (p.1, .str p.2))

/-- JSON encoding of one `metricSnapshot`. -/
def encodeSnapshot (s : MetricSnapshot) : Jval :=
  .obj [("name".toList, .str s.name), ("labels".toList, encodeLabels s.labels),
        ("value".toList, .num s.value), ("type".toList, .str s.type)]

/-- JSON encoding of the snapshot array. -/
def encodeSnapshots (l : List MetricSnapshot) : Jval :=
  .arr (l.map encodeSnapshot)

def decodeLabels : Jval → Option LabelMap
  | .obj fields => mapMOpt (fun p => (decodeStr p.2).map fun v => (p.1, v)) fields
  | _ => none

/-- Unmarshalling of one `metricSnapshot` (`json.Unmarshal` semantics: a
missing field keeps the Go zero value). -/
def decodeSnapshot : Jval → Option MetricSnapshot
  | .obj fields =>
      (match assocGet fields ("name".toList) with
       | none => some []
       | some j => decodeStr j).bind fun n =>
      (match assocGet fields ("labels".toList) with
       | none => some []
       | some j => decodeLabels j).bind fun ls =>
      (match assocGet fields ("value".toList) with
       | none => some 0
       | some j => decodeNum j).bind fun v =>
      (match assocGet fields ("type".toList) with
       | none => some []
       | some j => decodeStr j).map fun t => ⟨n, ls, v, t⟩
  | _ => none

def decodeSnapshots : Jval → Option (List MetricSnapshot)
  | .arr xs => mapMOpt decodeSnapshot xs
  | _ => none

/-- Embedding of `PrometheusSink.SaveCheckpoint` (src/prometheus/sink.go:147): marshal the
snapshot array, write it to the temporary path `filename + ".tmp"`, then
`os.Rename` the temporary file over `filename`. `openFail` models
`json.MarshalIndent` or the opening of the temporary file failing (nothing
written); `duringWrite w` models `os.WriteFile` interrupted with only `w`
flushed to the temporary path — in both cases the function returns the error
before any rename. -/
def PrometheusSink.SaveCheckpoint (p : PrometheusSink) (filename : GoStr)
    (fs : FS) (crash : SaveCrash) : FS × Except StoreErr Unit :=
  let tmp := filename ++ ".tmp".toList
  match crash with
  | .openFail => (fs, .error .ioError)
  | .duringWrite w => (fsWrite fs tmp (.raw w), .error .ioError)
  | .noCrash =>
      (fsRename (fsWrite fs tmp (.doc (encodeSnapshots (snapshotsOf p)))) tmp filename,
       .ok ())

/-- Embedding of `PrometheusSink.LoadCheckpoint` (src/prometheus/sink.go:213): a missing
file is "nothing to load" (returns nil); an unparsable file surfaces the
decode error; otherwise every decoded snapshot is applied in order — counter
entries through `IncCounter` (one unit increment, the stored value is
ignored), gauge entries through `SetGauge` with the stored value. -/
def PrometheusSink.LoadCheckpoint (p : PrometheusSink) (filename : GoStr)
    (fs : FS) : PrometheusSink × Except StoreErr Unit :=
  match fsRead fs filename with
  | none => (p, .ok ())
  | some (.raw _) => (p, .error .corruptFormat)
  | some (.doc j) =>
      match decodeSnapshots j with
      | none => (p, .error .corruptFormat)
      | some snaps =>
          (snaps.foldl
            (fun acc s =>
              if s.type = "counter".toList then acc.IncCounter s.name (some s.labels)
              else if s.type = "gauge".toList then acc.SetGauge s.name (some s.labels) s.value
              else acc)
            p, .ok ())

/-- Iterated `IncCounter`: `n` calls on the same series (the "N calls" of the
spec's testable property). -/
def incCounterN (name : GoStr) (labels : Option LabelMap) :
    Nat → PrometheusSink → PrometheusSink
  | 0, p => p
  | n + 1, p => incCounterN name labels n (p.IncCounter name labels)

end prometheus

/-! ## Concrete instances used to evaluate the code at specific inputs -/

/-- A checkpoint store holding one counter series, for evaluating `Save`. -/
def jcDemo : checkpoint.JSONCheckpoint :=
  { FilePath := "metrics.json".toList,
    CounterValues := [("deploy_total".toList, [("status=ok".toList, 3)])],
    GaugeValues := [] }

/-- A filesystem holding a previously successful save of `jcDemo`. -/
def fsDemo : FS :=
  [("metrics.json".toList, .doc (encodeTables jcDemo.CounterValues jcDemo.GaugeValues))]

/-- A checkpoint file holding a single counter snapshot with stored value 42,
for evaluating `LoadCheckpoint`. -/
def fsRestoreDemo : FS :=
  [("checkpoint.json".toList,
    .doc (prometheus.encodeSnapshots
      [⟨"deploy_total".toList, [("status".toList, "ok".toList)], 42, "counter".toList⟩]))]

/-- The sink after one `IncCounter("m", {a: x})` on a fresh sink: the recorded
label-name schema for `"m"` is `["a"]`. -/
def c8Sink1 : prometheus.PrometheusSink :=
  prometheus.NewSink.IncCounter ("m".toList) (some [("a".toList, "x".toList)])

/-- State `c8Sink1` after `SetGauge("m", {b: y}, 5)`: the same metric name used with
the other kind and another label set. -/
def c8Sink2 : prometheus.PrometheusSink :=
  c8Sink1.SetGauge ("m".toList) (some [("b".toList, "y".toList)]) 5

/-! ## Helper lemmas -/

theorem assocGet_assocUpd_self {β : Type} (m : List (GoStr × β)) (k : GoStr) (v : β) :
    assocGet (assocUpd m k v) k = some v := by
  induction m with
  | nil => simp [assocUpd, assocGet]
  | cons p rest ih =>
      by_cases h : k = p.1
      · simp [assocUpd, assocGet, h]
      · simp [assocUpd, assocGet, h, ih]

theorem assocGet_assocUpd_ne {β : Type} (m : List (GoStr × β)) (k q : GoStr) (v : β)
    (hne : q ≠ k) : assocGet (assocUpd m k v) q = assocGet m q := by
  induction m with
  | nil => simp [assocUpd, assocGet, hne]
  | cons p rest ih =>
      by_cases h : k = p.1
      · subst h
        simp [assocUpd, assocGet, hne]
      · by_cases hq : q = p.1
        · simp [assocUpd, assocGet, h, hq]
        · simp [assocUpd, assocGet, h, hq, ih]

theorem assocGet_eq_some_of_mem {β : Type} (m : List (GoStr × β)) (k : GoStr)
    (hmem : k ∈ m.map Prod.fst) : ∃ v, assocGet m k = some v ∧ (k, v) ∈ m := by
  induction m with
  | nil => simp at hmem
  | cons p rest ih =>
      by_cases h : k = p.1
      · exact ⟨p.2, by simp [assocGet, h], by simp [h]⟩
      · have hmem' : k ∈ rest.map Prod.fst := by
          simp only [List.map_cons, List.mem_cons] at hmem
          exact hmem.resolve_left h
        obtain ⟨v, hv, hvm⟩ := ih hmem'
        exact ⟨v, by simp [assocGet, h, hv], by simp [hvm]⟩

theorem assocGet_eq_none_of_not_mem {β : Type} (m : List (GoStr × β)) (k : GoStr)
    (hmem : k ∉ m.map Prod.fst) : assocGet m k = none := by
  induction m with
  | nil => rfl
  | cons p rest ih =>
      simp only [List.map_cons, List.mem_cons, not_or] at hmem
      simp [assocGet, hmem.1, ih hmem.2]

theorem mem_of_assocGet_eq_some {β : Type} (m : List (GoStr × β)) (k : GoStr) (v : β)
    (h : assocGet m k = some v) : (k, v) ∈ m := by
  induction m with
  | nil => simp [assocGet] at h
  | cons p rest ih =>
      rw [List.mem_cons]
      by_cases hk : k = p.1
      · simp only [assocGet, if_pos hk, Option.some.injEq] at h
        exact Or.inl (by rw [hk, ← h])
      · simp only [assocGet, if_neg hk] at h
        exact Or.inr (ih h)

theorem splitOnChar_ne_nil (sep : Char) (s : GoStr) : splitOnChar sep s ≠ [] := by
  cases s with
  | nil => simp [splitOnChar]
  | cons c cs =>
      simp only [splitOnChar]
      rcases h : splitOnChar sep cs with _ | ⟨r, rs⟩
      · simp
      · by_cases hc : c = sep <;> simp [hc]

theorem splitOnChar_of_not_mem (sep : Char) (s : GoStr) (h : sep ∉ s) :
    splitOnChar sep s = [s] := by
  induction s with
  | nil => rfl
  | cons c cs ih =>
      simp only [List.mem_cons, not_or] at h
      have hcs := ih h.2
      have hc : ¬ c = sep := fun hh => h.1 hh.symm
      simp [splitOnChar, hcs, hc]

theorem splitOnChar_append (sep : Char) (p rest : GoStr) (h : sep ∉ p) :
    splitOnChar sep (p ++ sep :: rest) = p :: splitOnChar sep rest := by
  induction p with
  | nil =>
      simp only [List.nil_append, splitOnChar]
      rcases hr : splitOnChar sep rest with _ | ⟨r, rs⟩
      · exact absurd hr (splitOnChar_ne_nil sep rest)
      · simp
  | cons c cs ih =>
      simp only [List.mem_cons, not_or] at h
      have hcs := ih h.2
      have hc : ¬ c = sep := fun hh => h.1 hh.symm
      simp only [List.cons_append, splitOnChar, List.append_eq]
      rw [hcs]
      simp [hc]

theorem splitOnChar_joinWith (sep : Char) (parts : List GoStr)
    (hne : parts ≠ []) (hfree : ∀ p ∈ parts, sep ∉ p) :
    splitOnChar sep (joinWith sep parts) = parts := by
  induction parts with
  | nil => exact absurd rfl hne
  | cons p ps ih =>
      cases ps with
      | nil =>
          simp only [joinWith]
          exact splitOnChar_of_not_mem sep p (hfree p (by simp))
      | cons q qs =>
          have h1 : splitOnChar sep (p ++ sep :: joinWith sep (q :: qs)) =
              p :: splitOnChar sep (joinWith sep (q :: qs)) :=
            splitOnChar_append sep p _ (hfree p (by simp))
          have h2 := ih (by simp) (fun x hx => hfree x (by simp [hx]))
          simp [joinWith, h1, h2]

theorem joinWith_ne_nil (sep : Char) (p : GoStr) (ps : List GoStr) (hp : p ≠ []) :
    joinWith sep (p :: ps) ≠ [] := by
  cases ps with
  | nil => simpa [joinWith]
  | cons q qs => simp [joinWith]

theorem insertStr_perm (x : GoStr) (l : List GoStr) : (insertStr x l).Perm (x :: l) := by
  induction l with
  | nil => simp [insertStr]
  | cons y ys ih =>
      by_cases h : strLe x y
      · simp [insertStr, h]
      · simp only [insertStr, h, Bool.false_eq_true, if_false]
        exact (ih.cons y).trans (List.Perm.swap x y ys)

theorem sortStrs_perm (l : List GoStr) : (sortStrs l).Perm l := by
  induction l with
  | nil => simp [sortStrs]
  | cons x xs ih => exact (insertStr_perm x (sortStrs xs)).trans (ih.cons x)

theorem mem_sortStrs (l : List GoStr) (q : GoStr) : q ∈ sortStrs l ↔ q ∈ l :=
  (sortStrs_perm l).mem_iff

theorem tblGetD_tblAdd_self (t : Table) (name key : GoStr) (d : Val) :
    tblGetD (tblAdd t name key d) name key = tblGetD t name key + d := by
  simp [tblGetD, tblAdd, assocGet_assocUpd_self]

theorem tblGetOpt_tblSet_self (t : Table) (name key : GoStr) (v : Val) :
    tblGetOpt (tblSet t name key v) name key = some v := by
  simp [tblGetOpt, tblSet, assocGet_assocUpd_self]

/-! ## The label codec (claims C3, C4) -/

theorem mapFromStringStep_entry (A : LabelMap) (k v : GoStr)
    (hk : util.KEY_VAL_SEPARATOR ∉ k) (hv : util.KEY_VAL_SEPARATOR ∉ v) :
    util.mapFromStringStep A (k ++ util.KEY_VAL_SEPARATOR :: v) = some (assocUpd A k v) := by
  have hsplit : splitOnChar util.KEY_VAL_SEPARATOR (k ++ util.KEY_VAL_SEPARATOR :: v)
      = [k, v] := by
    rw [splitOnChar_append _ _ _ hk, splitOnChar_of_not_mem _ _ hv]
  simp [util.mapFromStringStep, hsplit]

theorem foldlM_mapFromStringStep (f : GoStr → GoStr) (ks : List GoStr) (A : LabelMap)
    (hfree : ∀ k ∈ ks, util.KEY_VAL_SEPARATOR ∉ k ∧ util.KEY_VAL_SEPARATOR ∉ f k) :
    (ks.map fun k => k ++ util.KEY_VAL_SEPARATOR :: f k).foldlM util.mapFromStringStep A
      = some (ks.foldl (fun acc k => assocUpd acc k (f k)) A) := by
  induction ks generalizing A with
  | nil => rfl
  | cons k ks ih =>
      have hk := hfree k (List.mem_cons_self k ks)
      rw [List.map_cons, List.foldlM_cons, mapFromStringStep_entry A k (f k) hk.1 hk.2]
      exact ih (assocUpd A k (f k)) (fun x hx => hfree x (List.mem_cons_of_mem k hx))

theorem assocGet_foldl_assocUpd (f : GoStr → GoStr) (ks : List GoStr) (A : LabelMap)
    (q : GoStr) :
    assocGet (ks.foldl (fun acc k => assocUpd acc k (f k)) A) q
      = if q ∈ ks then some (f q) else assocGet A q := by
  induction ks generalizing A with
  | nil => simp
  | cons k ks ih =>
      rw [List.foldl_cons, ih (assocUpd A k (f k))]
      by_cases hq : q ∈ ks
      · simp [hq]
      · by_cases hqk : q = k
        · subst hqk
          simp [hq, assocGet_assocUpd_self]
        · simp [hq, hqk, assocGet_assocUpd_ne A k q (f k) hqk]

/-- C4: for every label set whose names and values contain neither the entry
separator `|` nor the assignment character `=`, decoding the encoding yields
the same label mapping (order-independent: equal lookups at every name);
moreover the empty (and nil) label set encodes to the empty string, and the
empty string decodes to the empty label set. -/
theorem C4_label_codec_roundtrip (L : LabelMap)
    (hfree : ∀ p ∈ L, util.MAP_ENTRY_SEPARATOR ∉ p.1 ∧ util.KEY_VAL_SEPARATOR ∉ p.1 ∧
        util.MAP_ENTRY_SEPARATOR ∉ p.2 ∧ util.KEY_VAL_SEPARATOR ∉ p.2) :
    (∃ M, util.MapFromString (util.JoinMapEntries (some L)) = some M ∧
        ∀ q, assocGet M q = assocGet L q)
    ∧ util.JoinMapEntries (some []) = [] ∧ util.JoinMapEntries none = []
    ∧ util.MapFromString [] = some [] := by
  refine ⟨?_, rfl, rfl, rfl⟩
  rcases hL : L.map Prod.fst with _ | ⟨k0, krest⟩
  · have hLnil : L = [] := List.map_eq_nil_iff.mp hL
    subst hLnil
    exact ⟨[], rfl, fun q => rfl⟩
  · have hkne : sortStrs (L.map Prod.fst) ≠ [] := by
      intro h
      have hlen := (sortStrs_perm (L.map Prod.fst)).length_eq
      rw [h, hL] at hlen
      simp at hlen
    -- facts about every sorted key and its looked-up value
    have hkfacts : ∀ k ∈ sortStrs (L.map Prod.fst),
        util.MAP_ENTRY_SEPARATOR ∉ k ∧ util.KEY_VAL_SEPARATOR ∉ k ∧
        util.MAP_ENTRY_SEPARATOR ∉ goIndex (some L) k ∧
        util.KEY_VAL_SEPARATOR ∉ goIndex (some L) k := by
      intro k hk
      obtain ⟨v, hget, hmem⟩ :=
        assocGet_eq_some_of_mem L k ((mem_sortStrs (L.map Prod.fst) k).mp hk)
      have hval : goIndex (some L) k = v := by simp [goIndex, hget]
      obtain ⟨h1, h2, h3, h4⟩ := hfree (k, v) hmem
      exact ⟨h1, h2, by rw [hval]; exact h3, by rw [hval]; exact h4⟩
    have hjoin : util.JoinMapEntries (some L) =
        joinWith util.MAP_ENTRY_SEPARATOR
          ((sortStrs (L.map Prod.fst)).map
            fun k => k ++ util.KEY_VAL_SEPARATOR :: goIndex (some L) k) := by
      simp [util.JoinMapEntries, util.SortedKeysFromMap, hkne]
    obtain ⟨key0, keyrest, hkeys⟩ :
        ∃ a l, sortStrs (L.map Prod.fst) = a :: l := by
      rcases h : sortStrs (L.map Prod.fst) with _ | ⟨a, l⟩
      · exact absurd h hkne
      · exact ⟨a, l, rfl⟩
    have hjoined_ne : util.JoinMapEntries (some L) ≠ [] := by
      rw [hjoin, hkeys, List.map_cons]
      exact joinWith_ne_nil _ _ _ (by simp)
    have hsplit : splitOnChar util.MAP_ENTRY_SEPARATOR (util.JoinMapEntries (some L)) =
        (sortStrs (L.map Prod.fst)).map
          fun k => k ++ util.KEY_VAL_SEPARATOR :: goIndex (some L) k := by
      rw [hjoin]
      apply splitOnChar_joinWith
      · rw [hkeys, List.map_cons]
        simp
      · intro p hp
        obtain ⟨k, hk, hpk⟩ := List.mem_map.mp hp
        obtain ⟨h1, _, h3, _⟩ := hkfacts k hk
        rw [← hpk]
        simp only [List.mem_append, List.mem_cons, not_or]
        refine ⟨h1, ?_, h3⟩
        decide
    refine ⟨(sortStrs (L.map Prod.fst)).foldl
      (fun acc k => assocUpd acc k (goIndex (some L) k)) [], ?_, ?_⟩
    · rw [util.MapFromString, if_neg hjoined_ne, hsplit]
      exact foldlM_mapFromStringStep (goIndex (some L)) _ []
        (fun k hk => ⟨(hkfacts k hk).2.1, (hkfacts k hk).2.2.2⟩)
    · intro q
      rw [assocGet_foldl_assocUpd]
      by_cases hq : q ∈ sortStrs (L.map Prod.fst)
      · obtain ⟨v, hget, _⟩ :=
          assocGet_eq_some_of_mem L q ((mem_sortStrs (L.map Prod.fst) q).mp hq)
        simp [hq, goIndex, hget]
      · have hq' : q ∉ L.map Prod.fst := fun h => hq ((mem_sortStrs _ q).mpr h)
        simp [hq, assocGet_eq_none_of_not_mem L q hq', assocGet]

/-- Witness for C4 at the concrete label set
`{status: ok, dc: dc1}` (reserved-character freedom discharged by `decide`). -/
theorem C4_label_codec_roundtrip_witness :
    (∃ M, util.MapFromString (util.JoinMapEntries
        (some [("status".toList, "ok".toList), ("dc".toList, "dc1".toList)])) = some M ∧
        ∀ q, assocGet M q =
          assocGet [("status".toList, "ok".toList), ("dc".toList, "dc1".toList)] q)
    ∧ util.JoinMapEntries (some []) = [] ∧ util.JoinMapEntries none = []
    ∧ util.MapFromString [] = some [] :=
  C4_label_codec_roundtrip [("status".toList, "ok".toList), ("dc".toList, "dc1".toList)]
    (by decide)

/-- C3 (evaluation of the code at the failing inputs): on the non-empty input
`"a=b|c"`, whose second entry lacks the assignment delimiter, and on `"abc"`,
`MapFromString` reaches the unchecked index `[1]` of a one-element slice:
the Go runtime panics (modelled as `none`) instead of returning a
malformed-input error value to the caller. -/
theorem C3_mapFromString_panics_on_missing_assignment :
    util.MapFromString ("a=b|c".toList) = none
    ∧ util.MapFromString ("abc".toList) = none := by
  constructor <;> rfl

/-! ## The checkpoint store (claims C2, C5, C9) -/

theorem decodeInnerTable_encodeInnerTable (m : List (GoStr × Val)) :
    decodeInnerTable (encodeInnerTable m) = some m := by
  induction m with
  | nil => rfl
  | cons p rest ih =>
      simp only [encodeInnerTable, List.map_cons, decodeInnerTable, mapMOpt] at ih ⊢
      rw [ih]
      rfl

theorem decodeTable_encodeTable (t : Table) :
    decodeTable (encodeTable t) = some t := by
  induction t with
  | nil => rfl
  | cons p rest ih =>
      simp only [encodeTable, List.map_cons, decodeTable, mapMOpt] at ih ⊢
      rw [ih, decodeInnerTable_encodeInnerTable]
      rfl

theorem decodeTables_encodeTables (c g : Table) :
    decodeTables (encodeTables c g) = some (c, g) := by
  have hne : ("gauges".toList : GoStr) ≠ "counters".toList := by decide
  simp [decodeTables, encodeTables, assocGet, hne, decodeTable_encodeTable]

/-- C5: a completed `Save` followed by `Load` restores both tables exactly
(hence value-for-value) and succeeds: the store round-trips every pair of
counter/gauge tables through the file. -/
theorem C5_save_load_roundtrip (jc : checkpoint.JSONCheckpoint) (fs : FS) :
    checkpoint.JSONCheckpoint.Load jc
        (checkpoint.JSONCheckpoint.Save jc fs SaveCrash.noCrash).1
      = (jc, Except.ok ()) := by
  simp [checkpoint.JSONCheckpoint.Save, checkpoint.JSONCheckpoint.Load, fsRead, fsWrite,
        assocGet_assocUpd_self, decodeTables_encodeTables]

/-- C9: when the checkpoint file is absent, `JSONCheckpoint.Load` returns the
not-found error and leaves the store's tables untouched (an empty store stays
empty), and `PrometheusSink.LoadCheckpoint` returns nil ("nothing to load")
and leaves the sink untouched — startup proceeds. -/
theorem C9_load_missing_file_start_empty :
    (∀ (jc : checkpoint.JSONCheckpoint) (fs : FS), fsRead fs jc.FilePath = none →
        checkpoint.JSONCheckpoint.Load jc fs = (jc, Except.error StoreErr.notFound))
    ∧ (∀ (p : prometheus.PrometheusSink) (filename : GoStr) (fs : FS),
        fsRead fs filename = none →
        prometheus.PrometheusSink.LoadCheckpoint p filename fs = (p, Except.ok ())) := by
  constructor
  · intro jc fs h
    simp [checkpoint.JSONCheckpoint.Load, h]
  · intro p filename fs h
    simp [prometheus.PrometheusSink.LoadCheckpoint, h]

/-- Witness for C9: loading from an empty filesystem leaves the fresh store
and the fresh sink unchanged. -/
theorem C9_load_missing_file_start_empty_witness :
    checkpoint.JSONCheckpoint.Load (checkpoint.NewJSONCheckpoint ("metrics.json".toList)) []
      = (checkpoint.NewJSONCheckpoint ("metrics.json".toList), Except.error StoreErr.notFound)
    ∧ prometheus.PrometheusSink.LoadCheckpoint prometheus.NewSink ("metrics.json".toList) []
      = (prometheus.NewSink, Except.ok ()) :=
  ⟨C9_load_missing_file_start_empty.1 (checkpoint.NewJSONCheckpoint ("metrics.json".toList)) [] rfl,
   C9_load_missing_file_start_empty.2 prometheus.NewSink ("metrics.json".toList) [] rfl⟩

theorem append_tmp_ne (s : GoStr) : s ++ ".tmp".toList ≠ s := by
  intro h
  have hlen := congrArg List.length h
  have h4 : (".tmp".toList : GoStr).length = 4 := rfl
  rw [List.length_append, h4] at hlen
  omega

/-- C2 counterexample: `JSONCheckpoint.Save` uses no temporary path — it opens
the canonical file itself with `os.Create` (which truncates it) and encodes
into it directly. With a previously saved file present, a failure during the
write leaves the canonical file holding the incomplete bytes instead of the
prior contents: the claim's "prior file left intact on any failure before the
rename" is false of this `Save`. -/
theorem C2_jsonSave_truncates_prior_file :
    fsRead ((checkpoint.JSONCheckpoint.Save jcDemo fsDemo (SaveCrash.duringWrite [])).1)
        jcDemo.FilePath = some (FileContent.raw [])
    ∧ fsRead fsDemo jcDemo.FilePath
        = some (FileContent.doc (encodeTables jcDemo.CounterValues jcDemo.GaugeValues))
    ∧ FileContent.raw []
        ≠ FileContent.doc (encodeTables jcDemo.CounterValues jcDemo.GaugeValues) := by
  refine ⟨rfl, rfl, ?_⟩
  intro h
  cases h

/-- C2 (amended): the write-temp-then-rename discipline and its crash-safety
hold of `PrometheusSink.SaveCheckpoint` (which writes to `filename + ".tmp"`
and renames): on a failure before the rename — whether nothing or only a
prefix `w` of the temporary file was written — the canonical file is exactly
what it was, and a completed save leaves the marshalled snapshot document at
the canonical path. `JSONCheckpoint.Save` does not follow this discipline
(see the counterexample). -/
theorem C2_saveCheckpoint_atomic :
    (∀ (p : prometheus.PrometheusSink) (filename : GoStr) (fs : FS) (w : GoStr),
        fsRead ((prometheus.PrometheusSink.SaveCheckpoint p filename fs
            (SaveCrash.duringWrite w)).1) filename = fsRead fs filename
        ∧ fsRead ((prometheus.PrometheusSink.SaveCheckpoint p filename fs
            SaveCrash.openFail).1) filename = fsRead fs filename)
    ∧ (∀ (p : prometheus.PrometheusSink) (filename : GoStr) (fs : FS),
        fsRead ((prometheus.PrometheusSink.SaveCheckpoint p filename fs
            SaveCrash.noCrash).1) filename
          = some (FileContent.doc (prometheus.encodeSnapshots (prometheus.snapshotsOf p)))) := by
  constructor
  · intro p filename fs w
    constructor
    · have hne : filename ≠ filename ++ ".tmp".toList := fun h => append_tmp_ne filename h.symm
      simp only [prometheus.PrometheusSink.SaveCheckpoint, fsRead, fsWrite]
      exact assocGet_assocUpd_ne fs (filename ++ ".tmp".toList) filename _ hne
    · rfl
  · intro p filename fs
    simp [prometheus.PrometheusSink.SaveCheckpoint, fsRename, fsRead, fsWrite,
      assocGet_assocUpd_self]

/-! ## The metric registry (claims C1, C6, C7, C8, C10) -/

theorem tblGetD_eq_zero_of_tblGetOpt_eq_none (t : Table) (name key : GoStr)
    (h : tblGetOpt t name key = none) : tblGetD t name key = 0 := by
  rcases hg : assocGet t name with _ | inner
  · simp [tblGetD, hg, assocGet]
  · rw [tblGetOpt, hg] at h
    simp only [Option.some_bind] at h
    simp [tblGetD, hg, h]

theorem incCounter_counters_isSome (p : prometheus.PrometheusSink) (name : GoStr)
    (labels : Option LabelMap) :
    (assocGet (p.IncCounter name labels).counters name).isSome = true := by
  rcases hreg : assocGet p.counters name with _ | lns
  · have hc : (p.IncCounter name labels).counters
        = assocUpd p.counters name (prometheus.keysFromLabels labels) := by
      simp [prometheus.PrometheusSink.IncCounter, prometheus.getOrCreateCounter, hreg]
    rw [hc, assocGet_assocUpd_self]
    rfl
  · have hc : (p.IncCounter name labels).counters = p.counters := by
      simp [prometheus.PrometheusSink.IncCounter, prometheus.getOrCreateCounter, hreg]
    rw [hc, hreg]
    rfl

theorem incCounter_value_step (p : prometheus.PrometheusSink) (name : GoStr)
    (labels : Option LabelMap)
    (h : (assocGet p.counters name).isSome = true
         ∨ tblGetD p.counterValues name
             (prometheus.labelKeyFromLabels (prometheus.keysFromLabels labels) labels) = 0) :
    tblGetD (p.IncCounter name labels).counterValues name
        (prometheus.labelKeyFromLabels (prometheus.keysFromLabels labels) labels)
      = tblGetD p.counterValues name
          (prometheus.labelKeyFromLabels (prometheus.keysFromLabels labels) labels) + 1 := by
  rcases hreg : assocGet p.counters name with _ | lns
  · have h0 : tblGetD p.counterValues name
        (prometheus.labelKeyFromLabels (prometheus.keysFromLabels labels) labels) = 0 := by
      rcases h with h | h
      · rw [hreg] at h
        simp at h
      · exact h
    have hcv : (p.IncCounter name labels).counterValues
        = tblAdd (assocUpd p.counterValues name []) name
            (prometheus.labelKeyFromLabels (prometheus.keysFromLabels labels) labels) 1 := by
      simp [prometheus.PrometheusSink.IncCounter, prometheus.getOrCreateCounter, hreg]
    have hnew : tblGetD (assocUpd p.counterValues name []) name
        (prometheus.labelKeyFromLabels (prometheus.keysFromLabels labels) labels) = 0 := by
      simp [tblGetD, assocGet_assocUpd_self, assocGet]
    rw [hcv, tblGetD_tblAdd_self, hnew, h0]
  · have hcv : (p.IncCounter name labels).counterValues
        = tblAdd p.counterValues name
            (prometheus.labelKeyFromLabels (prometheus.keysFromLabels labels) labels) 1 := by
      simp [prometheus.PrometheusSink.IncCounter, prometheus.getOrCreateCounter, hreg]
    rw [hcv, tblGetD_tblAdd_self]

theorem incCounterN_value_aux (name : GoStr) (labels : Option LabelMap) (n : Nat) :
    ∀ p : prometheus.PrometheusSink,
      ((assocGet p.counters name).isSome = true
        ∨ tblGetD p.counterValues name
            (prometheus.labelKeyFromLabels (prometheus.keysFromLabels labels) labels) = 0) →
      tblGetD ((prometheus.incCounterN name labels n p).counterValues) name
          (prometheus.labelKeyFromLabels (prometheus.keysFromLabels labels) labels)
        = tblGetD p.counterValues name
            (prometheus.labelKeyFromLabels (prometheus.keysFromLabels labels) labels)
          + (n : Val) := by
  induction n with
  | zero =>
      intro p _
      simp [prometheus.incCounterN]
  | succ n ih =>
      intro p hp
      rw [prometheus.incCounterN,
        ih (p.IncCounter name labels) (Or.inl (incCounter_counters_isSome p name labels)),
        incCounter_value_step p name labels hp]
      push_cast
      ring

/-- C6: starting from a state where the counter series is absent, `n` calls to
`IncCounter(name, labels)` leave the stored value of the series at `n`
(the prior value is 0); starting from a state where the series was
established by a restore — which always registers the counter vector —
they leave it at the prior value plus `n`. -/
theorem C6_incCounter_accumulates (p : prometheus.PrometheusSink) (name : GoStr)
    (labels : Option LabelMap) (n : Nat)
    (h : (assocGet p.counters name).isSome = true
         ∨ tblGetOpt p.counterValues name
             (prometheus.labelKeyFromLabels (prometheus.keysFromLabels labels) labels) = none) :
    tblGetD ((prometheus.incCounterN name labels n p).counterValues) name
        (prometheus.labelKeyFromLabels (prometheus.keysFromLabels labels) labels)
      = tblGetD p.counterValues name
          (prometheus.labelKeyFromLabels (prometheus.keysFromLabels labels) labels)
        + (n : Val) :=
  incCounterN_value_aux name labels n p
    (h.imp id fun hh => tblGetD_eq_zero_of_tblGetOpt_eq_none _ _ _ hh)

/-- Witness for C6: three increments of `m{a: b}` on a fresh sink take the
stored series value from 0 to 3. -/
theorem C6_incCounter_accumulates_witness :
    tblGetD ((prometheus.incCounterN ("m".toList) (some [("a".toList, "b".toList)]) 3
        prometheus.NewSink).counterValues) "m".toList
        (prometheus.labelKeyFromLabels
          (prometheus.keysFromLabels (some [("a".toList, "b".toList)]))
          (some [("a".toList, "b".toList)]))
      = tblGetD prometheus.NewSink.counterValues ("m".toList)
          (prometheus.labelKeyFromLabels
            (prometheus.keysFromLabels (some [("a".toList, "b".toList)]))
            (some [("a".toList, "b".toList)]))
        + (3 : Val) :=
  C6_incCounter_accumulates prometheus.NewSink ("m".toList)
    (some [("a".toList, "b".toList)]) 3 (Or.inr rfl)

/-- C7: two consecutive `SetGauge` calls on the same series leave exactly the
second value in the stored gauge table — last write wins, no accumulation. -/
theorem C7_setGauge_last_write_wins (p : prometheus.PrometheusSink) (name : GoStr)
    (labels : Option LabelMap) (v1 v2 : Val) :
    tblGetOpt (((p.SetGauge name labels v1).SetGauge name labels v2).gaugeValues) name
        (prometheus.labelKeyFromLabels (prometheus.keysFromLabels labels) labels)
      = some v2 := by
  simp only [prometheus.PrometheusSink.SetGauge]
  exact tblGetOpt_tblSet_self _ _ _ _

/-- C8 counterexample: after `IncCounter("m", {a: x})` records the label-name
list `["a"]` for `"m"`, the subsequent call `SetGauge("m", {b: y}, 5)` —
a call of the other metric kind on the same name — overwrites the recorded
list with `["b"]`: the recorded label-name list is not immutable under every
subsequent `IncCounter`/`SetGauge` call. -/
theorem C8_schema_overwritten_counterexample :
    assocGet c8Sink1.labelNames ("m".toList) = some ["a".toList]
    ∧ assocGet c8Sink2.labelNames ("m".toList) = some ["b".toList]
    ∧ (["a".toList] : List GoStr) ≠ ["b".toList] := by
  refine ⟨rfl, rfl, by decide⟩

/-- C8 (amended): the recorded label-name list of a metric name is never
changed by a call of the same metric kind — any `IncCounter` leaves it
unchanged for every name that already has a counter vector, and any
`SetGauge` leaves it unchanged for every name that already has a gauge
vector. (A first call of the other kind on the same name overwrites it, as
the counterexample shows.) -/
theorem C8_schema_fixed_per_kind (p : prometheus.PrometheusSink)
    (cname gname name : GoStr) (labels glabels : Option LabelMap) (v : Val) :
    ((assocGet p.counters name).isSome = true →
        assocGet (p.IncCounter cname labels).labelNames name
          = assocGet p.labelNames name)
    ∧ ((assocGet p.gauges name).isSome = true →
        assocGet (p.SetGauge gname glabels v).labelNames name
          = assocGet p.labelNames name) := by
  constructor
  · intro h
    rcases hreg : assocGet p.counters cname with _ | lns
    · have hln : (p.IncCounter cname labels).labelNames
          = assocUpd p.labelNames cname (prometheus.keysFromLabels labels) := by
        simp [prometheus.PrometheusSink.IncCounter, prometheus.getOrCreateCounter, hreg]
      have hne : name ≠ cname := by
        intro hEq
        rw [hEq, hreg] at h
        simp at h
      rw [hln]
      exact assocGet_assocUpd_ne _ _ _ _ hne
    · have hln : (p.IncCounter cname labels).labelNames = p.labelNames := by
        simp [prometheus.PrometheusSink.IncCounter, prometheus.getOrCreateCounter, hreg]
      rw [hln]
  · intro h
    rcases hreg : assocGet p.gauges gname with _ | lns
    · have hln : (p.SetGauge gname glabels v).labelNames
          = assocUpd p.labelNames gname (prometheus.keysFromLabels glabels) := by
        simp [prometheus.PrometheusSink.SetGauge, prometheus.getOrCreateGauge, hreg]
      have hne : name ≠ gname := by
        intro hEq
        rw [hEq, hreg] at h
        simp at h
      rw [hln]
      exact assocGet_assocUpd_ne _ _ _ _ hne
    · have hln : (p.SetGauge gname glabels v).labelNames = p.labelNames := by
        simp [prometheus.PrometheusSink.SetGauge, prometheus.getOrCreateGauge, hreg]
      rw [hln]

/-- Witness for the amended C8: on `c8Sink2` (which has both a counter and a
gauge registered under `"m"`), a further `IncCounter` and a further
`SetGauge` on `"m"` leave the recorded label-name list untouched. -/
theorem C8_schema_fixed_per_kind_witness :
    (assocGet (c8Sink2.IncCounter ("m".toList)
        (some [("a".toList, "x".toList)])).labelNames ("m".toList)
      = assocGet c8Sink2.labelNames ("m".toList))
    ∧ (assocGet (c8Sink2.SetGauge ("m".toList)
        (some [("b".toList, "y".toList)]) 7).labelNames ("m".toList)
      = assocGet c8Sink2.labelNames ("m".toList)) :=
  ⟨(C8_schema_fixed_per_kind c8Sink2 ("m".toList) ("m".toList) ("m".toList)
      (some [("a".toList, "x".toList)]) (some [("b".toList, "y".toList)]) 7).1 (by rfl),
   (C8_schema_fixed_per_kind c8Sink2 ("m".toList) ("m".toList) ("m".toList)
      (some [("a".toList, "x".toList)]) (some [("b".toList, "y".toList)]) 7).2 (by rfl)⟩

/-- C10: a nil label map behaves exactly like an empty one at the sink
interface: `IncCounter`/`SetGauge` with `nil` produce the very same sink state
as with an empty map, both use the empty canonical label key `""`, and
`SortedKeysFromMap`/`JoinMapEntries` agree on `nil` and empty as well. -/
theorem C10_nil_labels_equal_empty (p : prometheus.PrometheusSink) (name : GoStr)
    (v : Val) :
    p.IncCounter name none = p.IncCounter name (some [])
    ∧ p.SetGauge name none v = p.SetGauge name (some []) v
    ∧ prometheus.labelKeyFromLabels (prometheus.keysFromLabels none) none = []
    ∧ prometheus.labelKeyFromLabels (prometheus.keysFromLabels (some []))
        (some []) = []
    ∧ util.JoinMapEntries none = []
    ∧ util.JoinMapEntries (some []) = []
    ∧ util.SortedKeysFromMap none = util.SortedKeysFromMap (some []) := by
  exact ⟨rfl, rfl, rfl, rfl, rfl, rfl, rfl⟩

/-- C1 (evaluation at the failing input): loading a checkpoint file whose
single counter snapshot has stored value 42 succeeds but leaves the in-memory
series `deploy_total{status=ok}` at 1 — both in the checkpoint counters table
and in the counter vector's accumulator — because the restore path calls
`IncCounter` once per saved entry (a unit increment) instead of assigning the
persisted cumulative value. -/
theorem C1_restore_ignores_stored_value :
    ((prometheus.PrometheusSink.LoadCheckpoint prometheus.NewSink
        "checkpoint.json".toList fsRestoreDemo).2 = Except.ok ())
    ∧ tblGetOpt (prometheus.PrometheusSink.LoadCheckpoint prometheus.NewSink
        "checkpoint.json".toList fsRestoreDemo).1.counterValues
        "deploy_total".toList ("status=ok".toList) = some 1
    ∧ tblGetOpt (prometheus.PrometheusSink.LoadCheckpoint prometheus.NewSink
        "checkpoint.json".toList fsRestoreDemo).1.counterVecVals
        "deploy_total".toList ("status=ok".toList) = some 1
    ∧ (1 : Val) ≠ 42 := by
  refine ⟨rfl, ?_, ?_, by norm_num⟩
  · have h : tblGetOpt (prometheus.PrometheusSink.LoadCheckpoint prometheus.NewSink
        "checkpoint.json".toList fsRestoreDemo).1.counterValues
        "deploy_total".toList ("status=ok".toList) = some (0 + 1 : Val) := rfl
    rw [h]
    norm_num
  · have h : tblGetOpt (prometheus.PrometheusSink.LoadCheckpoint prometheus.NewSink
        "checkpoint.json".toList fsRestoreDemo).1.counterVecVals
        "deploy_total".toList ("status=ok".toList) = some (0 + 1 : Val) := rfl
    rw [h]
    norm_num

end Vmc
